import Mathlib

/-!
Shallow embedding of `src/index.ts` of the storybook stencil docs addon:
validators, case-insensitive component lookup, the six facet mappers,
the merge of their outputs, and the global document slot.  JavaScript
exceptions are modelled with `Except String`, `undefined`/`null` fields
with `Option`, and the process-wide document slot with explicit state
passing.
-/

set_option maxRecDepth 8192

namespace StencilDocs

/-! ### Model of the lodash `words` / `camelCase` / `kebabCase` helpers

The library feeds these helpers plain ASCII identifier-like strings
(`event-myEvent`, `css custom properties-foo`, ...).  We model lodash
word splitting on ASCII: maximal runs of digits, of lowercase letters,
and of uppercase letters form words; an uppercase run followed by a
lowercase run donates its last capital to the following word
(`FOOBar` -> `FOO`, `Bar`; `myEvent` -> `my`, `Event`); every other
character is a separator. -/

/-- `String.toLower`, as a structurally reducible map over the character
list (extensionally equal to the library function). -/
def strToLower (s : String) : String := String.mk (s.data.map Char.toLower)

/-- `String.toUpper`, as a structurally reducible map over the character
list (extensionally equal to the library function). -/
def strToUpper (s : String) : String := String.mk (s.data.map Char.toUpper)

inductive RunKind where
  | blank
  | digit
  | lower
  | caps
  deriving DecidableEq, Repr

structure WordsState where
  done : List String
  cur : List Char
  kind : RunKind
  deriving DecidableEq, Repr

/-- Close the word currently being scanned (`cur` holds it reversed). -/
def flushWord (st : WordsState) : WordsState :=
  if st.cur.isEmpty then { st with kind := .blank }
  else { done := st.done ++ [String.mk st.cur.reverse], cur := [], kind := .blank }

def wordsStep (st : WordsState) (c : Char) : WordsState :=
  if c.isDigit then
    match st.kind with
    | .digit => { st with cur := c :: st.cur }
    | _ => let s := flushWord st; { s with cur := [c], kind := .digit }
  else if c.isLower then
    match st.kind with
    | .lower => { st with cur := c :: st.cur }
    | .caps =>
      match st.cur with
      | [cap] => { st with cur := [c, cap], kind := .lower }
      | cap :: restCaps =>
        { done := st.done ++ [String.mk restCaps.reverse], cur := [c, cap], kind := .lower }
      | [] => { st with cur := [c], kind := .lower }
    | _ => let s := flushWord st; { s with cur := [c], kind := .lower }
  else if c.isUpper then
    match st.kind with
    | .caps => { st with cur := c :: st.cur }
    | _ => let s := flushWord st; { s with cur := [c], kind := .caps }
  else flushWord st

def asciiWords (s : String) : List String :=
  (flushWord (s.data.foldl wordsStep ⟨[], [], .blank⟩)).done

/-- lodash `capitalize`: whole word lowercased, then first char uppercased. -/
def capitalizeWord (w : String) : String :=
  match w.data with
  | [] => ""
  | c :: cs => String.mk (c.toUpper :: cs.map Char.toLower)

/-- lodash `camelCase`: first word lowercased, later words capitalized, joined. -/
def camelCase (s : String) : String :=
  match asciiWords s with
  | [] => ""
  | w :: ws => strToLower w ++ String.join (ws.map capitalizeWord)

/-- lodash `kebabCase`: words lowercased and joined with hyphens. -/
def kebabCase (s : String) : String :=
  String.intercalate "-" ((asciiWords s).map strToLower)

/-! ### JavaScript values and document shapes -/

/-- A JavaScript value passed as the `tagName` argument: the library is
typed to take a string but callers may pass anything. -/
inductive JSVal where
  | str (s : String)
  | num (n : Int)
  | boolean (b : Bool)
  | object
  | nullV
  | undefinedV
  deriving DecidableEq, Repr

/-- JavaScript truthiness of the modelled values (`!v` is `!truthy v`). -/
def truthy : JSVal → Bool
  | .str s => !s.isEmpty
  | .num n => n != 0
  | .boolean b => b
  | .object => true
  | .nullV => false
  | .undefinedV => false

/-- `typeof v === 'string'`. -/
def isStringVal : JSVal → Bool
  | .str _ => true
  | _ => false

/-- JavaScript `a || b` on an optional string and a string default
(`undefined` and `""` are falsy). -/
def jsOrStr (a : Option String) (b : String) : String :=
  match a with
  | some s => if s.isEmpty then b else s
  | none => b

/-- JavaScript `a || b` on two optional strings. -/
def jsOrOpt (a b : Option String) : Option String :=
  match a with
  | some s => if s.isEmpty then b else some s
  | none => b

/-- A literal permitted value of a prop (`string` or `number` valued). -/
inductive PropValue where
  | str (s : String)
  | num (n : Int)
  deriving DecidableEq, Repr

/-- One entry of a prop's `values` list: its own type tag and literal value. -/
structure PropValueItem where
  type : String
  value : PropValue
  deriving DecidableEq, Repr

structure StencilJsonDocsProp where
  name : String
  attr : Option String := none
  type : String
  docs : String := ""
  required : Bool := false
  default : Option String := none
  values : Option (List PropValueItem) := none
  deriving DecidableEq, Repr

structure StencilJsonDocsEvent where
  event : String
  docs : String := ""
  detail : String := ""
  deriving DecidableEq, Repr

structure StencilJsonDocsMethod where
  name : String
  docs : String := ""
  signature : String := ""
  deriving DecidableEq, Repr

structure StencilJsonDocsSlot where
  name : Option String := none
  docs : String := ""
  deriving DecidableEq, Repr

/-- Style custom properties and shadow parts are structurally identical
(`name` + `docs`); the source maps both through one generic mapper. -/
structure NamedDocItem where
  name : String
  docs : String := ""
  deriving DecidableEq, Repr

abbrev StencilJsonDocsStyle := NamedDocItem
abbrev StencilJsonDocsPart := NamedDocItem

structure ComponentRecord where
  tag : String
  readme : Option String := none
  docs : Option String := none
  props : Option (List StencilJsonDocsProp) := none
  events : Option (List StencilJsonDocsEvent) := none
  methods : Option (List StencilJsonDocsMethod) := none
  slots : Option (List StencilJsonDocsSlot) := none
  styles : Option (List StencilJsonDocsStyle) := none
  parts : Option (List StencilJsonDocsPart) := none
  deriving DecidableEq, Repr

/-- The `components` field of a registered document: absent, present but
not an array (both make the validator throw), or an actual list. -/
inductive ComponentsField where
  | missing
  | notArray
  | arr (components : List ComponentRecord)
  deriving DecidableEq, Repr

structure StencilJsonDocs where
  components : ComponentsField
  deriving DecidableEq, Repr

/-- The document argument / global slot content: `undefined`/`null`
(never registered) or an actual document object. -/
inductive DocInput where
  | absent
  | doc (d : StencilJsonDocs)
  deriving DecidableEq, Repr

/-! ### Validators and component lookup -/

def invalidComponentMessage : String :=
  "Provided component needs to be a string. e.g. component: \x22my-element\x22"

def invalidMetaDataMessage : String :=
  "You need to setup valid meta data in your preview.js via setStencilDocJson().\n    The meta data can be generated with the stencil output target \x27docs-json\x27."

def typeErrorMessage : String :=
  "TypeError: Cannot read properties of undefined (reading \x27filter\x27)"

/-- `isValidComponent`: falsy tag -> `false`; string tag -> `true`;
anything else throws. -/
def isValidComponent (tagName : JSVal) : Except String Bool :=
  if !truthy tagName then .ok false
  else if isStringVal tagName then .ok true
  else .error invalidComponentMessage

/-- `isValidMetaData`: falsy document -> `false`; `components` present and
an array -> `true`; anything else (missing or non-array `components`)
throws. -/
def isValidMetaData (stencilDocJson : DocInput) : Except String Bool :=
  match stencilDocJson with
  | .absent => .ok false
  | .doc d =>
    match d.components with
    | .arr _ => .ok true
    | _ => .error invalidMetaDataMessage

/-- The `components.find` with case-insensitive tag comparison.  Only
reached from `getMetaData` once both validators returned `true`, so the
fallback branches are never hit. -/
def findComponent (tagName : JSVal) (stencilDocJson : DocInput) : Option ComponentRecord :=
  match tagName, stencilDocJson with
  | .str s, .doc d =>
    match d.components with
    | .arr cs => cs.find? (fun c => strToUpper c.tag == strToUpper s)
    | _ => none
  | _, _ => none

/-- `getMetaData`: short-circuit `!isValidComponent(tagName) ||
!isValidMetaData(stencilDocJson)` returning `null`, then the
case-insensitive lookup (a not-found tag only logs a warning). -/
def getMetaData (tagName : JSVal) (stencilDocJson : DocInput) :
    Except String (Option ComponentRecord) :=
  match isValidComponent tagName with
  | .error e => .error e
  | .ok false => .ok none
  | .ok true =>
    match isValidMetaData stencilDocJson with
    | .error e => .error e
    | .ok false => .ok none
    | .ok true => .ok (findComponent tagName stencilDocJson)

/-! ### Control descriptors (`ArgTypes` entries) -/

/-- The `type` block of a descriptor: `{required: ...}` for props,
`{name: 'void'}` for the other facets. -/
structure TypeInfo where
  required : Option Bool := none
  name : Option String := none
  deriving DecidableEq, Repr

/-- The `table` block: a category plus either a `type.summary` string
(props/events/methods) or a `type.name` marker (slots/styles/parts), and
for props a `defaultValue.summary`. -/
structure TableInfo where
  category : String
  typeSummary : Option String := none
  typeName : Option String := none
  defaultSummary : Option (Option String) := none
  deriving DecidableEq, Repr

structure ArgType where
  name : Option String := none
  action : Option String := none
  description : String := ""
  required : Option Bool := none
  type : TypeInfo := {}
  control : Option String := none
  options : Option (List PropValue) := none
  table : TableInfo
  deriving DecidableEq, Repr

/-- The output mapping, as a JavaScript-object-like association list:
assignment replaces in place or appends. -/
abbrev ArgTypes := List (String × ArgType)

def getKey (m : ArgTypes) (k : String) : Option ArgType :=
  (m.find? (fun p => p.1 == k)).map Prod.snd

/-- JavaScript `acc[key] = value`: overwrite in place if present, else
append. -/
def setKey (m : ArgTypes) (k : String) (v : ArgType) : ArgTypes :=
  if m.any (fun p => p.1 == k) then
    m.map (fun p => if p.1 == k then (k, v) else p)
  else m ++ [(k, v)]

/-- Object spread `{...a, ...b}`: entries of `b` assigned over `a`. -/
def mergeObj (a b : ArgTypes) : ArgTypes :=
  b.foldl (fun acc p => setKey acc p.1 p.2) a

structure ExtractArgTypesOptions where
  dashCase : Bool
  deriving DecidableEq, Repr

/-- `dashCase === true ? kebabCase(key) : camelCase(key)`. -/
def caseKey (options : ExtractArgTypesOptions) (key : String) : String :=
  if options.dashCase then kebabCase key else camelCase key

/-! ### The six facet mappers -/

/-- `mapItemValuesToOptions`: reads `item.values` unguarded (a missing
list is the JavaScript `TypeError`), then keeps the values whose own
type is `string` or `number` and projects their literals. -/
def mapItemValuesToOptions (item : StencilJsonDocsProp) : Except String (List PropValue) :=
  match item.values with
  | none => .error typeErrorMessage
  | some vs =>
    .ok ((vs.filter (fun v => v.type == "string" || v.type == "number")).map (fun v => v.value))

/-- The `switch (item.type)` of `mapPropTypeToControl`. -/
def mapPropTypeToControl (item : StencilJsonDocsProp) :
    Except String (Option String × Option (List PropValue)) :=
  if item.type == "string" then .ok (some "text", none)
  else if item.type == "number" then .ok (some "number", none)
  else if item.type == "boolean" then .ok (some "boolean", none)
  else if item.type == "function" || item.type == "void" then .ok (none, none)
  else
    match mapItemValuesToOptions item with
    | .error e => .error e
    | .ok options =>
      .ok (some (if options.length == 0 then "object"
        else if options.length < 5 then "radio"
        else "select"), some options)

def propKey (options : ExtractArgTypesOptions) (item : StencilJsonDocsProp) : String :=
  caseKey options (jsOrStr item.attr item.name)

def propDesc (item : StencilJsonDocsProp) (control : Option String)
    (options : Option (List PropValue)) : ArgType :=
  { name := some (jsOrStr item.attr item.name)
    description := item.docs
    type := { required := some item.required }
    control := control
    options := options
    table := { category := "props"
               typeSummary := some item.type
               defaultSummary := some item.default } }

/-- The `reduce` of `mapPropsData`, with the JavaScript exception from
the control mapper propagating out of the whole fold. -/
def propsFold (options : ExtractArgTypesOptions) (acc : ArgTypes) :
    List StencilJsonDocsProp → Except String ArgTypes
  | [] => .ok acc
  | item :: rest =>
    match mapPropTypeToControl item with
    | .error e => .error e
    | .ok co => propsFold options (setKey acc (propKey options item) (propDesc item co.1 co.2)) rest

/-- `mapPropsData`; an absent list gives the empty mapping (the spread of
the JavaScript `undefined` result). -/
def mapPropsData (data : Option (List StencilJsonDocsProp))
    (options : ExtractArgTypesOptions) : Except String ArgTypes :=
  match data with
  | none => .ok []
  | some items => propsFold options [] items

def eventKey (options : ExtractArgTypesOptions) (item : StencilJsonDocsEvent) : String :=
  caseKey options ("event-" ++ item.event)

def eventDesc (item : StencilJsonDocsEvent) : ArgType :=
  { name := some item.event
    action := some item.event
    description := item.docs
    type := { name := some "void" }
    control := none
    table := { category := "events", typeSummary := some item.detail } }

def mapEventsData (data : Option (List StencilJsonDocsEvent))
    (options : ExtractArgTypesOptions) : ArgTypes :=
  match data with
  | none => []
  | some items => items.foldl (fun acc item => setKey acc (eventKey options item) (eventDesc item)) []

def methodKey (options : ExtractArgTypesOptions) (item : StencilJsonDocsMethod) : String :=
  caseKey options ("method-" ++ item.name)

def methodDesc (item : StencilJsonDocsMethod) : ArgType :=
  { name := some item.name
    description := item.docs
    type := { name := some "void" }
    control := none
    table := { category := "methods", typeSummary := some item.signature } }

def mapMethodsData (data : Option (List StencilJsonDocsMethod))
    (options : ExtractArgTypesOptions) : ArgTypes :=
  match data with
  | none => []
  | some items => items.foldl (fun acc item => setKey acc (methodKey options item) (methodDesc item)) []

def slotKey (options : ExtractArgTypesOptions) (item : StencilJsonDocsSlot) : String :=
  caseKey options ("slot-" ++ jsOrStr item.name "_default")

def slotDesc (item : StencilJsonDocsSlot) : ArgType :=
  { name := item.name
    required := some false
    description := item.docs
    control := none
    type := { name := some "void" }
    table := { category := "slots", typeName := some "void" } }

def mapSlotsData (data : Option (List StencilJsonDocsSlot))
    (options : ExtractArgTypesOptions) : ArgTypes :=
  match data with
  | none => []
  | some items => items.foldl (fun acc item => setKey acc (slotKey options item) (slotDesc item)) []

def genericKey (category : String) (options : ExtractArgTypesOptions)
    (item : NamedDocItem) : String :=
  caseKey options (category ++ "-" ++ item.name)

def genericDesc (category : String) (item : NamedDocItem) : ArgType :=
  { name := some item.name
    required := some false
    description := item.docs
    control := none
    type := { name := some "void" }
    table := { category := category, typeName := some "void" } }

def mapGenericData (data : Option (List NamedDocItem)) (category : String)
    (options : ExtractArgTypesOptions) : ArgTypes :=
  match data with
  | none => []
  | some items =>
    items.foldl (fun acc item => setKey acc (genericKey category options item) (genericDesc category item)) []

/-! ### Entry points -/

/-- `extractArgTypesFromElements`: resolve the component, then spread the
six facet mappings in the fixed source order. -/
def extractArgTypesFromElements (tagName : JSVal) (stencilDocJson : DocInput)
    (options : ExtractArgTypesOptions) : Except String (Option ArgTypes) :=
  match getMetaData tagName stencilDocJson with
  | .error e => .error e
  | .ok none => .ok none
  | .ok (some metaData) =>
    match mapPropsData metaData.props options with
    | .error e => .error e
    | .ok propsMap =>
      .ok (some (mergeObj (mergeObj (mergeObj (mergeObj (mergeObj
        propsMap
        (mapEventsData metaData.events options))
        (mapMethodsData metaData.methods options))
        (mapSlotsData metaData.slots options))
        (mapGenericData metaData.styles "css custom properties" options))
        (mapGenericData metaData.parts "css shadow parts" options)))

/-- `setStencilDocJson`: overwrite the global slot, ignoring its prior
content. -/
def setStencilDocJson (stencilDocJson : StencilJsonDocs) (_prev : DocInput) : DocInput :=
  .doc stencilDocJson

/-- `getStencilDocJson`: read the global slot. -/
def getStencilDocJson (state : DocInput) : DocInput := state

/-- The caller-supplied `Partial` options of the factory: a field that is
`none` was not given and falls back to the factory default. -/
structure FactoryOptions where
  dashCase : Option Bool := none
  deriving DecidableEq, Repr

/-- The spread `{dashCase: false, ...options}`. -/
def mergeOptions (options : FactoryOptions) : ExtractArgTypesOptions :=
  { dashCase := options.dashCase.getD false }

/-- `extractArgTypesFactory`: the returned closure reads the global slot
(the explicit `DocInput` state) at call time. -/
def extractArgTypesFactory (options : FactoryOptions) :
    DocInput → JSVal → Except String (Option ArgTypes) :=
  fun state tagName =>
    extractArgTypesFromElements tagName (getStencilDocJson state) (mergeOptions options)

/-- `extractArgTypes = extractArgTypesFactory()`. -/
def extractArgTypes : DocInput → JSVal → Except String (Option ArgTypes) :=
  extractArgTypesFactory {}

/-- `extractComponentDescription`: `metaData && (metaData.readme || metaData.docs)`. -/
def extractComponentDescription (state : DocInput) (tagName : JSVal) :
    Except String (Option String) :=
  match getMetaData tagName (getStencilDocJson state) with
  | .error e => .error e
  | .ok none => .ok none
  | .ok (some metaData) => .ok (jsOrOpt metaData.readme metaData.docs)

/-! ### Concrete documents used by the claims -/

def myCardProp : StencilJsonDocsProp :=
  { name := "title", attr := some "title", type := "string", required := true,
    default := some "Hi" }

def cardClickEvent : StencilJsonDocsEvent :=
  { event := "cardClick", detail := "void" }

def myCardComponent : ComponentRecord :=
  { tag := "my-card", props := some [myCardProp], events := some [cardClickEvent] }

def myCardDoc : StencilJsonDocs := { components := .arr [myCardComponent] }

end StencilDocs

namespace StencilDocs

/-- Claim C1 (counterexample): registering the `my-card` document and
extracting with the default extractor yields the keys `title` and
`eventCardClick` — there is no `cardClick` key, because event keys are
built from `event-<eventName>` before camel-casing. -/
theorem extractArgTypes_myCard_no_cardClick_key :
    (extractArgTypes (setStencilDocJson myCardDoc .absent) (.str "my-card")).map
        (Option.map (fun m => (m.map Prod.fst, getKey m "cardClick")))
      = .ok (some (["title", "eventCardClick"], none)) := rfl

/-- Claim C1 (amended): the default extractor on the registered `my-card`
document returns exactly the keys `title` (text control, required,
default summary `"Hi"`) and `eventCardClick` (no control, action
`cardClick`, table category `events`). -/
theorem extractArgTypes_myCard_descriptors :
    ∃ m, extractArgTypes (setStencilDocJson myCardDoc .absent) (.str "my-card") = .ok (some m)
      ∧ m.map Prod.fst = ["title", "eventCardClick"]
      ∧ (getKey m "title").map (fun d => (d.control, d.type.required, d.table.defaultSummary))
          = some (some "text", some true, some (some "Hi"))
      ∧ (getKey m "eventCardClick").map (fun d => (d.control, d.action, d.table.category))
          = some (none, some "cardClick", "events") :=
  ⟨_, rfl, rfl, rfl, rfl⟩

/-- Claim C2: a truthy non-string tag name makes resolution throw the
invalid-component error, whatever the document is. -/
theorem getMetaData_throws_on_nonstring (tagName : JSVal) (stencilDocJson : DocInput)
    (ht : truthy tagName = true) (hs : isStringVal tagName = false) :
    getMetaData tagName stencilDocJson = .error invalidComponentMessage := by
  have h1 : isValidComponent tagName = .error invalidComponentMessage := by
    simp [isValidComponent, ht, hs]
  simp [getMetaData, h1]

/-- Witness for C2 at the number `5` and an absent document. -/
theorem getMetaData_throws_on_nonstring_witness :
    truthy (.num 5) = true ∧ isStringVal (.num 5) = false ∧
      getMetaData (.num 5) .absent = .error invalidComponentMessage :=
  ⟨rfl, rfl, getMetaData_throws_on_nonstring (.num 5) .absent rfl rfl⟩

/-- Claim C3 (counterexample): with an empty-string tag name, resolution
against a document whose `components` is not a list returns `null`
without throwing — the tag-name check short-circuits before the document
is validated, so the claim's "for any tag-name argument" fails. -/
theorem getMetaData_emptyTag_invalidDoc_returns_null :
    getMetaData (.str "") (.doc { components := .notArray }) = .ok none := rfl

/-- Claim C3 (amended): for every non-absent document whose `components`
field is missing or not a list, resolution with any non-empty string tag
name throws the invalid-document error. -/
theorem getMetaData_throws_on_invalid_doc (s : String) (hs : s.isEmpty = false)
    (cf : ComponentsField) (hcf : ∀ cs, cf ≠ .arr cs) :
    getMetaData (.str s) (.doc { components := cf }) = .error invalidMetaDataMessage := by
  have h1 : isValidComponent (.str s) = .ok true := by
    simp [isValidComponent, truthy, isStringVal, hs]
  have h2 : isValidMetaData (.doc { components := cf }) = .error invalidMetaDataMessage := by
    cases cf with
    | arr cs => exact absurd rfl (hcf cs)
    | missing => rfl
    | notArray => rfl
  simp [getMetaData, h1, h2]

/-- Witness for the amended C3 at tag `"x"` and a document with a missing
`components` field. -/
theorem getMetaData_throws_on_invalid_doc_witness :
    ("x" : String).isEmpty = false ∧
      getMetaData (.str "x") (.doc { components := .missing }) = .error invalidMetaDataMessage :=
  ⟨rfl, getMetaData_throws_on_invalid_doc "x" rfl .missing (fun _ h => ComponentsField.noConfusion h)⟩

/-- Claim C6: an event named `myEvent` gets descriptor key
`event-my-event` under `dashCase := true` and `eventMyEvent` under
`dashCase := false`. -/
theorem eventKey_casing (item : StencilJsonDocsEvent) (h : item.event = "myEvent") :
    (mapEventsData (some [item]) { dashCase := true }).map Prod.fst = ["event-my-event"]
  ∧ (mapEventsData (some [item]) { dashCase := false }).map Prod.fst = ["eventMyEvent"] := by
  obtain ⟨e, d, dt⟩ := item
  simp only at h
  subst h
  exact ⟨rfl, rfl⟩

/-- Witness for C6 at a concrete `myEvent` event item. -/
theorem eventKey_casing_witness :
    (⟨"myEvent", "", ""⟩ : StencilJsonDocsEvent).event = "myEvent" ∧
    (mapEventsData (some [(⟨"myEvent", "", ""⟩ : StencilJsonDocsEvent)]) { dashCase := true }).map
        Prod.fst = ["event-my-event"] ∧
    (mapEventsData (some [(⟨"myEvent", "", ""⟩ : StencilJsonDocsEvent)]) { dashCase := false }).map
        Prod.fst = ["eventMyEvent"] :=
  ⟨rfl, (eventKey_casing _ rfl).1, (eventKey_casing _ rfl).2⟩

/-- Claim C9: the function built by the factory reads the document
registered at call time (here `d2`, registered after `d1`), and runs with
`dashCase` defaulted to `false` unless the factory options override it. -/
theorem extractArgTypesFactory_reads_current_doc (options : FactoryOptions)
    (d1 d2 : StencilJsonDocs) (s0 : DocInput) (tagName : JSVal) :
    extractArgTypesFactory options (setStencilDocJson d2 (setStencilDocJson d1 s0)) tagName
      = extractArgTypesFromElements tagName (.doc d2)
          { dashCase := options.dashCase.getD false } := rfl

/-- Concrete enum-like prop with three string-typed permitted values. -/
def enumProp : StencilJsonDocsProp :=
  { name := "mood", type := "Mood",
    values := some [⟨"string", .str "happy"⟩, ⟨"string", .str "sad"⟩, ⟨"string", .str "calm"⟩] }

/-- Claim C4: the control derived from a prop's declared type —
`string`/`number`/`boolean` give the homonymous controls, `function` and
`void` give no control, and any other type filters the permitted values
to the string- or number-typed ones and picks object/radio/select by
their count, attaching them as options. -/
theorem mapPropTypeToControl_cases (item : StencilJsonDocsProp) :
    (item.type = "string" → mapPropTypeToControl item = .ok (some "text", none))
  ∧ (item.type = "number" → mapPropTypeToControl item = .ok (some "number", none))
  ∧ (item.type = "boolean" → mapPropTypeToControl item = .ok (some "boolean", none))
  ∧ (item.type = "function" ∨ item.type = "void" → mapPropTypeToControl item = .ok (none, none))
  ∧ (∀ vs, item.type ∉ (["string", "number", "boolean", "function", "void"] : List String) →
      item.values = some vs →
      ∀ opts, opts = (vs.filter (fun v => v.type == "string" || v.type == "number")).map
          (fun v => v.value) →
        (opts.length = 0 → mapPropTypeToControl item = .ok (some "object", some opts))
        ∧ (1 ≤ opts.length → opts.length ≤ 4 →
            mapPropTypeToControl item = .ok (some "radio", some opts))
        ∧ (5 ≤ opts.length → mapPropTypeToControl item = .ok (some "select", some opts))) := by
  refine ⟨?_, ?_, ?_, ?_, ?_⟩
  · intro h; simp [mapPropTypeToControl, h]
  · intro h; simp [mapPropTypeToControl, h]
  · intro h; simp [mapPropTypeToControl, h]
  · rintro (h | h) <;> simp [mapPropTypeToControl, h]
  · intro vs hnot hvals opts hopts
    simp only [List.mem_cons, List.not_mem_nil, or_false, not_or] at hnot
    obtain ⟨h1, h2, h3, h4, h5⟩ := hnot
    have hctl : mapPropTypeToControl item =
        .ok (some (if opts.length == 0 then "object"
          else if opts.length < 5 then "radio"
          else "select"), some opts) := by
      simp [mapPropTypeToControl, h1, h2, h3, h4, h5, mapItemValuesToOptions, hvals, hopts]
    refine ⟨?_, ?_, ?_⟩
    · intro hlen; rw [hctl]; simp [hlen]
    · intro hlo hhi; rw [hctl]
      have hz : (opts.length == 0) = false := by
        simp only [beq_eq_false_iff_ne, ne_eq]; omega
      have hlt : opts.length < 5 := by omega
      simp [hz, hlt]
    · intro hge; rw [hctl]
      have hz : (opts.length == 0) = false := by
        simp only [beq_eq_false_iff_ne, ne_eq]; omega
      have hlt : ¬ opts.length < 5 := by omega
      simp [hz, hlt]

/-- Witness for C4: the three-string-valued enum prop gets a radio
control with exactly those three options. -/
theorem mapPropTypeToControl_cases_witness :
    mapPropTypeToControl enumProp
      = .ok (some "radio", some [.str "happy", .str "sad", .str "calm"]) := by
  have h := (mapPropTypeToControl_cases enumProp).2.2.2.2
      [⟨"string", .str "happy"⟩, ⟨"string", .str "sad"⟩, ⟨"string", .str "calm"⟩]
      (by decide) rfl [.str "happy", .str "sad", .str "calm"] (by decide)
  exact h.2.1 (by decide) (by decide)

/-- Resolution on a valid tag and a list-typed document is exactly the
case-insensitive `find`. -/
theorem getMetaData_str_arr (s : String) (hs : s.isEmpty = false) (cs : List ComponentRecord) :
    getMetaData (.str s) (.doc { components := .arr cs })
      = .ok (cs.find? (fun c => strToUpper c.tag == strToUpper s)) := by
  have h1 : isValidComponent (.str s) = .ok true := by
    simp [isValidComponent, truthy, isStringVal, hs]
  simp [getMetaData, h1, isValidMetaData, findComponent]

def myElementComponent : ComponentRecord := { tag := "my-element" }

/-- Claim C7: lookup is case-insensitive — a document containing a
component tagged `my-element` resolves identically (to one and the same
record of the list) for `MY-ELEMENT`, `My-Element` and `my-element`. -/
theorem getMetaData_case_insensitive (cs : List ComponentRecord) (c : ComponentRecord)
    (hc : c ∈ cs) (htag : c.tag = "my-element") :
    ∃ r, r ∈ cs
      ∧ getMetaData (.str "MY-ELEMENT") (.doc { components := .arr cs }) = .ok (some r)
      ∧ getMetaData (.str "My-Element") (.doc { components := .arr cs }) = .ok (some r)
      ∧ getMetaData (.str "my-element") (.doc { components := .arr cs }) = .ok (some r) := by
  have hfind : (cs.find? (fun c => strToUpper c.tag == "MY-ELEMENT")).isSome := by
    rw [List.find?_isSome]
    exact ⟨c, hc, by simp only [htag]; decide⟩
  obtain ⟨r, hr⟩ := Option.isSome_iff_exists.mp hfind
  refine ⟨r, List.mem_of_find?_eq_some hr, ?_, ?_, ?_⟩
  · rw [getMetaData_str_arr "MY-ELEMENT" rfl cs]
    simp only [show strToUpper "MY-ELEMENT" = "MY-ELEMENT" from rfl]
    rw [hr]
  · rw [getMetaData_str_arr "My-Element" rfl cs]
    simp only [show strToUpper "My-Element" = "MY-ELEMENT" from rfl]
    rw [hr]
  · rw [getMetaData_str_arr "my-element" rfl cs]
    simp only [show strToUpper "my-element" = "MY-ELEMENT" from rfl]
    rw [hr]

/-- Witness for C7 at the singleton document holding `my-element`. -/
theorem getMetaData_case_insensitive_witness :
    ∃ r, r ∈ [myElementComponent]
      ∧ getMetaData (.str "MY-ELEMENT") (.doc { components := .arr [myElementComponent] })
          = .ok (some r)
      ∧ getMetaData (.str "My-Element") (.doc { components := .arr [myElementComponent] })
          = .ok (some r)
      ∧ getMetaData (.str "my-element") (.doc { components := .arr [myElementComponent] })
          = .ok (some r) :=
  getMetaData_case_insensitive [myElementComponent] myElementComponent
    (List.mem_singleton_self _) rfl

def readmeComponent : ComponentRecord :=
  { tag := "with-readme", readme := some "README", docs := some "DOCS" }

def docsOnlyComponent : ComponentRecord :=
  { tag := "docs-only", docs := some "DOCS" }

def descDoc : StencilJsonDocs :=
  { components := .arr [readmeComponent, docsOnlyComponent] }

/-- Claim C8: `extractComponentDescription` returns the readme when the
component resolves and carries a (non-empty) readme, falls back to the
`docs` field when the readme is absent, and returns absent when the
component does not resolve. -/
theorem extractComponentDescription_cases (state : DocInput) (tagName : JSVal) :
    (∀ md r dv, getMetaData tagName (getStencilDocJson state) = .ok (some md) →
        md.readme = some r → r.isEmpty = false → md.docs = some dv →
        extractComponentDescription state tagName = .ok (some r))
  ∧ (∀ md, getMetaData tagName (getStencilDocJson state) = .ok (some md) →
        md.readme = none →
        extractComponentDescription state tagName = .ok md.docs)
  ∧ (getMetaData tagName (getStencilDocJson state) = .ok none →
        extractComponentDescription state tagName = .ok none) := by
  refine ⟨?_, ?_, ?_⟩
  · intro md r dv hmd hr hre hdv
    simp [extractComponentDescription, hmd, jsOrOpt, hr, hre]
  · intro md hmd hr
    simp [extractComponentDescription, hmd, jsOrOpt, hr]
  · intro hmd
    simp [extractComponentDescription, hmd]

/-- Witness for C8: readme preferred, docs fallback, absent on a missing
component, on a concrete registered document. -/
theorem extractComponentDescription_cases_witness :
    extractComponentDescription (setStencilDocJson descDoc .absent) (.str "with-readme")
        = .ok (some "README")
  ∧ extractComponentDescription (setStencilDocJson descDoc .absent) (.str "docs-only")
        = .ok (some "DOCS")
  ∧ extractComponentDescription (setStencilDocJson descDoc .absent) (.str "nope")
        = .ok none :=
  ⟨(extractComponentDescription_cases _ _).1 readmeComponent "README" "DOCS" rfl rfl rfl rfl,
   (extractComponentDescription_cases _ _).2.1 docsOnlyComponent rfl rfl,
   (extractComponentDescription_cases _ _).2.2 rfl⟩

/-- The only exception the prop control mapper can raise is the
`TypeError` from reading a missing `values` list. -/
theorem mapPropTypeToControl_error_msg (item : StencilJsonDocsProp) (e : String)
    (h : mapPropTypeToControl item = .error e) : e = typeErrorMessage := by
  simp only [mapPropTypeToControl] at h
  split_ifs at h
  cases hv : item.values with
  | none => simp [mapItemValuesToOptions, hv] at h; exact h.symm
  | some vs => simp [mapItemValuesToOptions, hv] at h

/-- A prop item whose control mapper throws makes the whole props fold
throw, from any accumulator. -/
theorem propsFold_error_of_mem (options : ExtractArgTypesOptions)
    (item : StencilJsonDocsProp)
    (herr : mapPropTypeToControl item = .error typeErrorMessage) :
    ∀ (items : List StencilJsonDocsProp), item ∈ items →
      ∀ acc, propsFold options acc items = .error typeErrorMessage := by
  intro items
  induction items with
  | nil => intro hmem; exact absurd hmem (List.not_mem_nil _)
  | cons hd tl ih =>
    intro hmem acc
    rcases List.mem_cons.mp hmem with h | h
    · subst h
      simp [propsFold, herr]
    · cases hco : mapPropTypeToControl hd with
      | error e =>
        have he := mapPropTypeToControl_error_msg hd e hco
        subst he
        simp [propsFold, hco]
      | ok co =>
        simp only [propsFold, hco]
        exact ih h _

/-- `getKey` on a cons is decided by the head's key. -/
theorem getKey_cons (p : String × ArgType) (m : ArgTypes) (k : String) :
    getKey (p :: m) k = if p.1 == k then some p.2 else getKey m k := by
  by_cases h : (p.1 == k) = true <;> simp [getKey, List.find?, h]

theorem getKey_map_replace_ne (m : ArgTypes) (k k' : String) (v : ArgType) (hne : k' ≠ k) :
    getKey (m.map (fun p => if p.1 == k then (k, v) else p)) k' = getKey m k' := by
  induction m with
  | nil => rfl
  | cons p m ih =>
    rw [List.map_cons, getKey_cons, getKey_cons]
    by_cases hpk : (p.1 == k) = true
    · rw [if_pos hpk]
      have hp1 : p.1 = k := eq_of_beq hpk
      have h1 : ((k, v).1 == k') = false := beq_eq_false_iff_ne.mpr (fun he => hne he.symm)
      have h2 : (p.1 == k') = false := by
        rw [hp1]; exact beq_eq_false_iff_ne.mpr (fun he => hne he.symm)
      rw [h1, h2]
      simpa using ih
    · rw [if_neg hpk]
      by_cases hpk' : (p.1 == k') = true
      · rw [if_pos hpk', if_pos hpk']
      · rw [if_neg hpk', if_neg hpk']
        exact ih

theorem getKey_map_replace_self (m : ArgTypes) (k : String) (v : ArgType)
    (hmem : m.any (fun p => p.1 == k) = true) :
    getKey (m.map (fun p => if p.1 == k then (k, v) else p)) k = some v := by
  induction m with
  | nil => simp at hmem
  | cons p m ih =>
    rw [List.map_cons, getKey_cons]
    by_cases hpk : (p.1 == k) = true
    · rw [if_pos hpk]
      simp
    · rw [if_neg hpk]
      have hmem' : m.any (fun p => p.1 == k) = true := by
        simpa [List.any_cons, hpk] using hmem
      rw [if_neg hpk]
      exact ih hmem'

theorem getKey_append_single_self (m : ArgTypes) (k : String) (v : ArgType)
    (hmem : m.any (fun p => p.1 == k) = false) :
    getKey (m ++ [(k, v)]) k = some v := by
  induction m with
  | nil => simp [getKey_cons]
  | cons p m ih =>
    simp only [List.any_cons, Bool.or_eq_false_iff] at hmem
    obtain ⟨hpk, hmem'⟩ := hmem
    rw [List.cons_append, getKey_cons, if_neg (by simp [hpk])]
    exact ih hmem'

theorem getKey_append_single_ne (m : ArgTypes) (k k' : String) (v : ArgType) (hne : k' ≠ k) :
    getKey (m ++ [(k, v)]) k' = getKey m k' := by
  induction m with
  | nil =>
    have h : (k == k') = false := beq_eq_false_iff_ne.mpr (Ne.symm hne)
    simp [getKey_cons, h, getKey]
  | cons p m ih =>
    rw [List.cons_append, getKey_cons, getKey_cons]
    by_cases hpk : (p.1 == k') = true
    · rw [if_pos hpk, if_pos hpk]
    · rw [if_neg hpk, if_neg hpk]
      exact ih

theorem getKey_setKey_self (m : ArgTypes) (k : String) (v : ArgType) :
    getKey (setKey m k v) k = some v := by
  unfold setKey
  by_cases hmem : m.any (fun p => p.1 == k) = true
  · rw [if_pos hmem]
    exact getKey_map_replace_self m k v hmem
  · rw [if_neg hmem]
    exact getKey_append_single_self m k v ((Bool.not_eq_true _) ▸ hmem)

theorem getKey_setKey_ne (m : ArgTypes) (k k' : String) (v : ArgType) (hne : k' ≠ k) :
    getKey (setKey m k v) k' = getKey m k' := by
  unfold setKey
  by_cases hmem : m.any (fun p => p.1 == k) = true
  · rw [if_pos hmem]
    exact getKey_map_replace_ne m k k' v hne
  · rw [if_neg hmem]
    exact getKey_append_single_ne m k k' v hne

theorem mergeObj_cons (a : ArgTypes) (p : String × ArgType) (b : ArgTypes) :
    mergeObj a (p :: b) = mergeObj (setKey a p.1 p.2) b := rfl

/-- A spread leaves alone every key the second object does not hold. -/
theorem getKey_mergeObj_of_none (a b : ArgTypes) (k : String) (hb : getKey b k = none) :
    getKey (mergeObj a b) k = getKey a k := by
  induction b generalizing a with
  | nil => rfl
  | cons p b ih =>
    rw [getKey_cons] at hb
    by_cases hpk : (p.1 == k) = true
    · rw [if_pos hpk] at hb
      cases hb
    · rw [if_neg hpk] at hb
      rw [mergeObj_cons, ih _ hb]
      exact getKey_setKey_ne a p.1 k p.2 (fun he => hpk (by simp [he]))

/-- Keys of a JavaScript-object association list are unique. -/
def NoDupKeys (m : ArgTypes) : Prop := (m.map Prod.fst).Nodup

/-- A spread imposes, on every key the second object holds, the second
object's value — later facets overwrite earlier ones. -/
theorem getKey_mergeObj_of_some (a b : ArgTypes) (k : String) (v : ArgType)
    (hnd : NoDupKeys b) (hb : getKey b k = some v) :
    getKey (mergeObj a b) k = some v := by
  induction b generalizing a with
  | nil => simp [getKey] at hb
  | cons p b ih =>
    rw [getKey_cons] at hb
    rw [mergeObj_cons]
    unfold NoDupKeys at hnd
    rw [List.map_cons, List.nodup_cons] at hnd
    obtain ⟨hnotin, hnd'⟩ := hnd
    by_cases hpk : (p.1 == k) = true
    · rw [if_pos hpk] at hb
      have hp1 : p.1 = k := eq_of_beq hpk
      have hv : p.2 = v := Option.some.inj hb
      have hbnone : getKey b k = none := by
        have hfind : b.find? (fun q => q.1 == k) = none := by
          rw [List.find?_eq_none]
          intro x hx hxk
          exact hnotin (by rw [hp1, ← eq_of_beq hxk]; exact List.mem_map_of_mem _ hx)
        simp [getKey, hfind]
      rw [getKey_mergeObj_of_none _ _ _ hbnone, hp1]
      exact hv ▸ getKey_setKey_self a k p.2
    · rw [if_neg hpk] at hb
      exact ih _ hnd' hb

theorem noDupKeys_setKey (m : ArgTypes) (k : String) (v : ArgType)
    (h : NoDupKeys m) : NoDupKeys (setKey m k v) := by
  unfold NoDupKeys setKey at *
  by_cases hmem : m.any (fun p => p.1 == k) = true
  · rw [if_pos hmem, List.map_map]
    have : m.map (Prod.fst ∘ fun p => if p.1 == k then (k, v) else p) = m.map Prod.fst := by
      apply List.map_congr_left
      intro p _
      by_cases hpk : (p.1 == k) = true
      · simp [Function.comp, hpk, (eq_of_beq hpk).symm]
      · simp [Function.comp, hpk]
    rw [this]
    exact h
  · rw [if_neg hmem, List.map_append, List.nodup_append]
    refine ⟨h, List.nodup_singleton _, ?_⟩
    intro x hx hxk
    simp only [List.map_cons, List.map_nil, List.mem_singleton] at hxk
    subst hxk
    obtain ⟨p, hp, hpk⟩ := List.mem_map.mp hx
    exact hmem (List.any_eq_true.mpr ⟨p, hp, by simp [hpk]⟩)

theorem noDupKeys_foldl_setKey {α : Type} (fk : α → String) (fv : α → ArgType) :
    ∀ (l : List α) (m : ArgTypes), NoDupKeys m →
      NoDupKeys (l.foldl (fun acc it => setKey acc (fk it) (fv it)) m)
  | [], _, h => h
  | it :: l, m, h =>
    noDupKeys_foldl_setKey fk fv l (setKey m (fk it) (fv it)) (noDupKeys_setKey _ _ _ h)

theorem noDupKeys_nil : NoDupKeys [] := List.nodup_nil

theorem noDupKeys_mapEventsData (data : Option (List StencilJsonDocsEvent))
    (options : ExtractArgTypesOptions) : NoDupKeys (mapEventsData data options) := by
  cases data with
  | none => exact noDupKeys_nil
  | some items =>
    exact noDupKeys_foldl_setKey (fun it => eventKey options it) (fun it => eventDesc it)
      items [] noDupKeys_nil

/-- Claim C5: extraction merges the six facet mappings in the fixed
source order (props, events, methods, slots, styles, parts), later
facets overwriting earlier ones on key collision; in particular when a
prop and an event derive to the same key (and no later facet holds it),
the merged result carries the event's descriptor. -/
theorem extract_merge_event_wins
    (tagName : JSVal) (stencilDocJson : DocInput) (options : ExtractArgTypesOptions)
    (md : ComponentRecord) (propsMap : ArgTypes) (k : String) (d : ArgType)
    (hmd : getMetaData tagName stencilDocJson = .ok (some md))
    (hp : mapPropsData md.props options = .ok propsMap)
    (_hprop : getKey propsMap k ≠ none)
    (hev : getKey (mapEventsData md.events options) k = some d)
    (hme : getKey (mapMethodsData md.methods options) k = none)
    (hsl : getKey (mapSlotsData md.slots options) k = none)
    (hst : getKey (mapGenericData md.styles "css custom properties" options) k = none)
    (hpa : getKey (mapGenericData md.parts "css shadow parts" options) k = none) :
    extractArgTypesFromElements tagName stencilDocJson options
      = .ok (some (mergeObj (mergeObj (mergeObj (mergeObj (mergeObj
          propsMap
          (mapEventsData md.events options))
          (mapMethodsData md.methods options))
          (mapSlotsData md.slots options))
          (mapGenericData md.styles "css custom properties" options))
          (mapGenericData md.parts "css shadow parts" options)))
    ∧ ∀ m, extractArgTypesFromElements tagName stencilDocJson options = .ok (some m) →
        getKey m k = some d := by
  have hres : extractArgTypesFromElements tagName stencilDocJson options
      = .ok (some (mergeObj (mergeObj (mergeObj (mergeObj (mergeObj
          propsMap
          (mapEventsData md.events options))
          (mapMethodsData md.methods options))
          (mapSlotsData md.slots options))
          (mapGenericData md.styles "css custom properties" options))
          (mapGenericData md.parts "css shadow parts" options))) := by
    simp [extractArgTypesFromElements, hmd, hp]
  refine ⟨hres, ?_⟩
  intro m hm
  rw [hres] at hm
  obtain rfl := (Option.some.inj (Except.ok.inj hm)).symm
  rw [getKey_mergeObj_of_none _ _ _ hpa, getKey_mergeObj_of_none _ _ _ hst,
    getKey_mergeObj_of_none _ _ _ hsl, getKey_mergeObj_of_none _ _ _ hme]
  exact getKey_mergeObj_of_some _ _ _ _ (noDupKeys_mapEventsData _ _) hev

def collideProp : StencilJsonDocsProp := { name := "eventFoo", type := "string" }

def fooEvent : StencilJsonDocsEvent := { event := "foo" }

def collideComponent : ComponentRecord :=
  { tag := "col-el", props := some [collideProp], events := some [fooEvent] }

def collideDoc : StencilJsonDocs := { components := .arr [collideComponent] }

/-- Witness for C5: `eventFoo` prop and `foo` event collide on the
`eventFoo` key and extraction holds the event's descriptor there. -/
theorem extract_merge_event_wins_witness :
    ∃ m, extractArgTypesFromElements (.str "col-el") (.doc collideDoc) { dashCase := false }
        = .ok (some m) ∧ getKey m "eventFoo" = some (eventDesc fooEvent) := by
  have h := extract_merge_event_wins (.str "col-el") (.doc collideDoc) { dashCase := false }
    collideComponent [("eventFoo", propDesc collideProp (some "text") none)] "eventFoo"
    (eventDesc fooEvent) rfl rfl (by decide) rfl rfl rfl rfl rfl
  exact ⟨_, h.1, h.2 _ h.1⟩

def moodProp : StencilJsonDocsProp := { name := "mood", type := "Mood" }

def moodComponent : ComponentRecord := { tag := "my-mood", props := some [moodProp] }

def moodDoc : StencilJsonDocs := { components := .arr [moodComponent] }

/-- Claim C10: a prop with a non-primitive declared type and no `values`
list makes the control mapper throw the `TypeError` (the enum branch
reads `item.values` unguarded), and full extraction of any component
containing such a prop throws it too. -/
theorem missing_values_throws (item : StencilJsonDocsProp)
    (hty : item.type ∉ (["string", "number", "boolean", "function", "void"] : List String))
    (hv : item.values = none) :
    mapPropTypeToControl item = .error typeErrorMessage
  ∧ ∀ (tagName : JSVal) (stencilDocJson : DocInput) (options : ExtractArgTypesOptions)
      (md : ComponentRecord) (propList : List StencilJsonDocsProp),
      getMetaData tagName stencilDocJson = .ok (some md) →
      md.props = some propList → item ∈ propList →
      extractArgTypesFromElements tagName stencilDocJson options = .error typeErrorMessage := by
  have hctl : mapPropTypeToControl item = .error typeErrorMessage := by
    simp only [List.mem_cons, List.not_mem_nil, or_false, not_or] at hty
    obtain ⟨h1, h2, h3, h4, h5⟩ := hty
    simp [mapPropTypeToControl, h1, h2, h3, h4, h5, mapItemValuesToOptions, hv]
  refine ⟨hctl, ?_⟩
  intro tagName stencilDocJson options md propList hmd hp hmem
  have hfold : mapPropsData md.props options = .error typeErrorMessage := by
    rw [hp]
    exact propsFold_error_of_mem options item hctl propList hmem []
  simp [extractArgTypesFromElements, hmd, hfold]

/-- Witness for C10: the `Mood`-typed prop without `values` makes both
the control mapper and full extraction of `my-mood` throw. -/
theorem missing_values_throws_witness :
    mapPropTypeToControl moodProp = .error typeErrorMessage
  ∧ extractArgTypesFromElements (.str "my-mood") (.doc moodDoc) { dashCase := false }
      = .error typeErrorMessage := by
  have h := missing_values_throws moodProp (by decide) rfl
  exact ⟨h.1, h.2 (.str "my-mood") (.doc moodDoc) { dashCase := false } moodComponent [moodProp]
    rfl rfl (List.mem_singleton_self _)⟩

end StencilDocs
